import Mathlib

/-!
Shallow embedding of the `users` tRPC router of the T3-stack demo
(`src/server/routers/user.ts`) together with the relational store it talks
to.  The router code (three procedures: `getAll`, `create`, `delete`) is
translated directly from the TypeScript source; the physical `users` table
(`src/db/schema` is imported by the router but its file is not part of the
sources), so the store itself is modelled from the spec.
-/

namespace T3

/-- A row of the `users` table: `id` (integer primary key), `name`,
`email`, `createdAt` (timestamp, modelled as a natural number tick). -/
structure User where
  id : Nat
  name : String
  email : String
  createdAt : Nat
deriving Repr, DecidableEq

/-- Modelled from the spec: the durable state of the relational store
(the `users` table declared in the missing `src/db/schema`), together
with the auto-increment sequence for `id` and the server clock that
stamps `createdAt`.  `rows` is kept in insertion order. -/
structure DbState where
  rows : List User
  nextId : Nat
  clock : Nat
deriving Repr, DecidableEq

/-- The store before any call: no rows, the id sequence at 1. -/
def dbEmpty : DbState := ⟨[], 1, 0⟩

/-- The error taxonomy surfaced by the procedures (spec section 7). -/
inductive ApiError where
  | ValidationError (field : String) (msg : String)
  | ConstraintViolation
  | ConnectionError
deriving Repr, DecidableEq

/-! ### Zod input validation (the `.input(...)` schemas of the router) -/

/-- `z.string().min(1, "Name is required")`: the string's length is at
least 1.  No trimming is performed by `min`. -/
def zodStringMin1 (s : String) : Bool := decide (1 ≤ s.length)

/-- ASCII letter (the `A-Za-z` classes of Zod's email regex). -/
def isAsciiAlpha (c : Char) : Bool :=
  decide (65 ≤ c.toNat ∧ c.toNat ≤ 90) || decide (97 ≤ c.toNat ∧ c.toNat ≤ 122)

/-- ASCII digit `0-9`. -/
def isAsciiDigit (c : Char) : Bool := decide (48 ≤ c.toNat ∧ c.toNat ≤ 57)

/-- Letter or digit. -/
def isAlnum (c : Char) : Bool := isAsciiAlpha c || isAsciiDigit c

/-- Character class `[A-Za-z0-9_'+\-.]` of the local part of Zod's email
regex (codepoint 95 is the underscore, 39 the apostrophe, 43 `+`,
45 `-`, 46 `.`). -/
def isLocalChar (c : Char) : Bool :=
  isAlnum c || decide (c.toNat = 95) || decide (c.toNat = 39) ||
    decide (c.toNat = 43) || decide (c.toNat = 45) || decide (c.toNat = 46)

/-- Character class `[A-Za-z0-9_+-]` that the local part must end with. -/
def isLocalEnd (c : Char) : Bool :=
  isAlnum c || decide (c.toNat = 95) || decide (c.toNat = 43) ||
    decide (c.toNat = 45)

/-- Two consecutive dots somewhere in the character list (the
`(?!.*\.\.)` lookahead of the regex). -/
def hasDoubleDot : List Char → Bool
  | [] => false
  | [_] => false
  | a :: b :: rest => (decide (a.toNat = 46) && decide (b.toNat = 46)) || hasDoubleDot (b :: rest)

/-- Split a character list at every character satisfying `p`; the
separators are dropped.  Always returns at least one (possibly empty)
piece, exactly like the usual string split. -/
def splitOn (p : Char → Bool) : List Char → List (List Char)
  | [] => [[]]
  | c :: rest =>
    if p c then
      [] :: splitOn p rest
    else
      match splitOn p rest with
      | [] => [[c]]
      | h :: t => (c :: h) :: t

/-- The local part of Zod's email regex:
`(?!\.)(?!.*\.\.)([A-Za-z0-9_'+\-.]*)[A-Za-z0-9_+-]` — non-empty, not
starting with a dot, no two consecutive dots, all characters from the
local class, and the final character from the restricted end class. -/
def zodLocalOk (l : List Char) : Bool :=
  match l with
  | [] => false
  | c :: _ =>
    !decide (c.toNat = 46) && l.all isLocalChar && !hasDoubleDot l &&
      (match l.getLast? with
       | some e => isLocalEnd e
       | none => false)

/-- A domain label `[A-Za-z0-9][A-Za-z0-9-]*`: non-empty, starts with an
alphanumeric, continues with alphanumerics or hyphens. -/
def zodLabelOk (l : List Char) : Bool :=
  match l with
  | [] => false
  | c :: rest => isAlnum c && rest.all (fun d => isAlnum d || decide (d.toNat = 45))

/-- The final label `[A-Za-z]{2,}`: at least two characters, all letters. -/
def zodTldOk (l : List Char) : Bool :=
  decide (2 ≤ l.length) && l.all isAsciiAlpha

/-- The domain part of Zod's email regex
`([A-Za-z0-9][A-Za-z0-9-]*\.)+[A-Za-z]{2,}`: one or more labels each
followed by a dot, then a final label of at least two letters. -/
def zodDomainOk (d : List Char) : Bool :=
  match (splitOn (fun c => decide (c.toNat = 46)) d).reverse with
  | tld :: lab :: labs => zodTldOk tld && (lab :: labs).all zodLabelOk
  | _ => false

/-- Zod v3's email regex on a character list:
`^(?!\.)(?!.*\.\.)([A-Za-z0-9_'+\-.]*)[A-Za-z0-9_+-]@([A-Za-z0-9][A-Za-z0-9-]*\.)+[A-Za-z]{2,}$`.
Since `@` (codepoint 64) occurs in neither character class, a match
splits the string at its unique `@` into a local part and a domain. -/
def zodEmailCheckL (l : List Char) : Bool :=
  match splitOn (fun c => decide (c.toNat = 64)) l with
  | [loc, dom] => zodLocalOk loc && zodDomainOk dom
  | _ => false

/-- `z.string().email("Invalid email address")`. -/
def zodEmailCheck (s : String) : Bool := zodEmailCheckL s.toList

/-- Follows the spec's words only (for comparison with the code's
`zodEmailCheck`): "standard email syntax (local-part@domain, at least
one dot in domain)" — a non-empty local part, an `@`, and a non-empty
domain containing a dot. -/
def specEmailShapeL (l : List Char) : Bool :=
  match splitOn (fun c => decide (c.toNat = 64)) l with
  | [loc, dom] => !loc.isEmpty && !dom.isEmpty && dom.any (fun c => decide (c.toNat = 46))
  | _ => false

/-- `specEmailShapeL` on a string. -/
def specEmailShape (s : String) : Bool := specEmailShapeL s.toList

/-! ### The persistence gateway (Drizzle calls against the `users` table) -/

/-- Stable insertion of a row into a list ordered by `createdAt`
(the comparison step of `ORDER BY created_at`). -/
def insertSorted (u : User) : List User → List User
  | [] => [u]
  | v :: rest =>
    if u.createdAt ≤ v.createdAt then u :: v :: rest else v :: insertSorted u rest

/-- `SELECT ... ORDER BY created_at` — a stable sort of the rows by
`createdAt` ascending. -/
def sortByCreatedAt : List User → List User
  | [] => []
  | u :: rest => insertSorted u (sortByCreatedAt rest)

/-- `ctx.db.select().from(users).orderBy(users.createdAt)`. -/
def listUsers (s : DbState) : List User := sortByCreatedAt s.rows

/-- Modelled from the spec: `ctx.db.insert(users).values({name, email}).returning()`
against the `users` table of the missing `src/db/schema` — the store
assigns `id` from its auto-increment sequence and `createdAt` from the
server clock, and rejects a duplicate `email` (unique column) with a
constraint violation, writing nothing in that case. -/
def insertUser (s : DbState) (name email : String) :
    Except ApiError (User × DbState) :=
  if s.rows.any (fun u => u.email == email) then
    .error .ConstraintViolation
  else
    let u : User := ⟨s.nextId, name, email, s.clock⟩
    .ok (u, ⟨s.rows ++ [u], s.nextId + 1, s.clock + 1⟩)

/-- `ctx.db.delete(users).where(eq(users.id, input.id))`: remove exactly
the rows whose `id` equals the input value.  The input is a JavaScript
number, so the comparison is taken over ℚ. -/
def deleteUser (s : DbState) (idq : ℚ) : DbState :=
  ⟨s.rows.filter (fun u => decide (¬ ((u.id : ℚ) = idq))), s.nextId, s.clock⟩

/-! ### The router procedures -/

/-- The input object of `user.create`. -/
structure CreateInput where
  name : String
  email : String
deriving Repr, DecidableEq

/-- The whole `z.object({name: ..., email: ...})` schema of `create`:
both field checks pass. -/
def createValid (i : CreateInput) : Bool :=
  zodStringMin1 i.name && zodEmailCheck i.email

/-- The `user.create` procedure: Zod validates the input object before
the handler runs (field order: `name`, then `email`); on valid input the
handler delegates to the insert and returns the new row. -/
def userCreate (s : DbState) (i : CreateInput) :
    Except ApiError (User × DbState) :=
  if !zodStringMin1 i.name then
    .error (.ValidationError "name" "Name is required")
  else if !zodEmailCheck i.email then
    .error (.ValidationError "email" "Invalid email address")
  else
    insertUser s i.name i.email

/-- The response object of `user.delete`. -/
structure DeleteResponse where
  success : Bool
deriving Repr, DecidableEq

/-- The `user.delete` handler: run the delete, answer `{success: true}`. -/
def userDelete (s : DbState) (idq : ℚ) : DeleteResponse × DbState :=
  (⟨true⟩, deleteUser s idq)

/-- The `user.getAll` procedure. -/
def userGetAll (s : DbState) : List User := listUsers s

/-! ### The transport boundary of `delete` -/

/-- A JavaScript value as it reaches the `id` field of `delete`'s input
schema; finite non-NaN numbers are carried as rationals, NaN separately. -/
inductive JsValue where
  | vNull
  | vUndefined
  | vBool (b : Bool)
  | vNum (q : ℚ)
  | vNaN
  | vStr (s : String)
deriving Repr, DecidableEq

/-- `z.number()`: accepts any value whose parsed type is `number`
(`typeof v === "number"` and not NaN); no integer check is applied. -/
def zodNumberParse : JsValue → Option ℚ
  | .vNum q => some q
  | _ => none

/-- The `user.delete` procedure seen from the transport boundary: parse
the `id` field with `z.number()`, then run the handler. -/
def userDeleteRaw (s : DbState) (v : JsValue) :
    Except ApiError (DeleteResponse × DbState) :=
  match zodNumberParse v with
  | none => .error (.ValidationError "id" "Expected number")
  | some q => .ok (userDelete s q)

/-! ### Call sequences -/

/-- One call to the router. -/
inductive Op where
  | opGetAll
  | opCreate (i : CreateInput)
  | opDelete (idq : ℚ)
deriving Repr, DecidableEq

/-- The store state after one call (reads and failed writes leave it
unchanged). -/
def applyOp (s : DbState) : Op → DbState
  | .opGetAll => s
  | .opCreate i =>
    match userCreate s i with
    | .ok (_, s2) => s2
    | .error _ => s
  | .opDelete idq => (userDelete s idq).2

/-- The store state after a sequence of calls. -/
def runOps (s : DbState) (ops : List Op) : DbState := ops.foldl applyOp s

/-! ### Store invariants -/

/-- Well-formedness of a store state: rows are strictly increasing in
both `id` and `createdAt` (so both are pairwise distinct and the list is
in insertion order), every `id` is below the auto-increment cursor and
every `createdAt` below the clock. -/
def WF (s : DbState) : Prop :=
  s.rows.Pairwise (fun a b => a.id < b.id ∧ a.createdAt < b.createdAt) ∧
    (∀ u ∈ s.rows, u.id < s.nextId) ∧ (∀ u ∈ s.rows, u.createdAt < s.clock)

theorem wf_dbEmpty : WF dbEmpty := by
  refine ⟨List.Pairwise.nil, ?_, ?_⟩ <;> intro u hu <;> cases hu

theorem create_ok_iff (s : DbState) (i : CreateInput) (u : User) (s2 : DbState) :
    userCreate s i = .ok (u, s2) ↔
      zodStringMin1 i.name = true ∧ zodEmailCheck i.email = true ∧
        s.rows.any (fun v => v.email == i.email) = false ∧
        u = ⟨s.nextId, i.name, i.email, s.clock⟩ ∧
        s2 = ⟨s.rows ++ [⟨s.nextId, i.name, i.email, s.clock⟩], s.nextId + 1, s.clock + 1⟩ := by
  by_cases h1 : zodStringMin1 i.name <;> by_cases h2 : zodEmailCheck i.email <;>
    by_cases h3 : s.rows.any (fun v => v.email == i.email) <;>
      simp [userCreate, insertUser, h1, h2, h3, eq_comm, and_assoc]

theorem create_error_applyOp (s : DbState) (i : CreateInput) (e : ApiError)
    (h : userCreate s i = .error e) : applyOp s (.opCreate i) = s := by
  simp [applyOp, h]

theorem create_ok_applyOp (s : DbState) (i : CreateInput) (u : User) (s2 : DbState)
    (h : userCreate s i = .ok (u, s2)) : applyOp s (.opCreate i) = s2 := by
  simp [applyOp, h]

theorem wf_applyOp (s : DbState) (op : Op) (h : WF s) : WF (applyOp s op) := by
  obtain ⟨hp, hid, hct⟩ := h
  cases op with
  | opGetAll => exact ⟨hp, hid, hct⟩
  | opCreate i =>
    cases hc : userCreate s i with
    | error e => rw [create_error_applyOp s i e hc]; exact ⟨hp, hid, hct⟩
    | ok p =>
      obtain ⟨u, s2⟩ := p
      obtain ⟨-, -, -, -, hs2⟩ := (create_ok_iff s i u s2).mp hc
      rw [create_ok_applyOp s i u s2 hc, hs2]
      refine ⟨?_, ?_, ?_⟩
      · rw [List.pairwise_append]
        refine ⟨hp, List.pairwise_singleton _ _, ?_⟩
        intro a ha b hb
        rw [List.mem_singleton] at hb
        subst hb
        exact ⟨hid a ha, hct a ha⟩
      · intro v hv
        rcases List.mem_append.mp hv with hv | hv
        · exact Nat.lt_succ_of_lt (hid v hv)
        · rw [List.mem_singleton] at hv; subst hv; exact Nat.lt_succ_self _
      · intro v hv
        rcases List.mem_append.mp hv with hv | hv
        · exact Nat.lt_succ_of_lt (hct v hv)
        · rw [List.mem_singleton] at hv; subst hv; exact Nat.lt_succ_self _
  | opDelete q =>
    refine ⟨List.Pairwise.sublist (List.filter_sublist _) hp, ?_, ?_⟩ <;>
      intro v hv
    · exact hid v (List.mem_of_mem_filter hv)
    · exact hct v (List.mem_of_mem_filter hv)

theorem wf_runOps (s : DbState) (ops : List Op) (h : WF s) : WF (runOps s ops) := by
  induction ops generalizing s with
  | nil => exact h
  | cons op rest ih => exact ih (applyOp s op) (wf_applyOp s op h)

/-! ### The sort used by `getAll` -/

theorem mem_insertSorted (u a : User) (l : List User) :
    a ∈ insertSorted u l ↔ a = u ∨ a ∈ l := by
  induction l with
  | nil => simp [insertSorted]
  | cons v rest ih =>
    simp only [insertSorted]
    split
    · simp [List.mem_cons]
    · simp only [List.mem_cons, ih]
      tauto

theorem mem_sortByCreatedAt (a : User) (l : List User) :
    a ∈ sortByCreatedAt l ↔ a ∈ l := by
  induction l with
  | nil => simp [sortByCreatedAt]
  | cons u rest ih =>
    simp only [sortByCreatedAt, mem_insertSorted, ih, List.mem_cons]

theorem sortByCreatedAt_eq_self (l : List User)
    (h : l.Pairwise (fun a b => a.createdAt < b.createdAt)) :
    sortByCreatedAt l = l := by
  induction l with
  | nil => rfl
  | cons u rest ih =>
    obtain ⟨hu, hrest⟩ := List.pairwise_cons.mp h
    rw [sortByCreatedAt, ih hrest]
    cases rest with
    | nil => rfl
    | cons v t =>
      rw [insertSorted, if_pos (Nat.le_of_lt (hu v (List.mem_cons_self v t)))]

/-! ### Persistence of stored rows across calls -/

theorem pairwise_id_unique (l : List User)
    (h : l.Pairwise (fun a b => a.id < b.id ∧ a.createdAt < b.createdAt))
    (u v : User) (hu : u ∈ l) (hv : v ∈ l) (hid : u.id = v.id) : u = v := by
  induction l with
  | nil => cases hu
  | cons w rest ih =>
    obtain ⟨hw, hrest⟩ := List.pairwise_cons.mp h
    rcases List.mem_cons.mp hu with rfl | hu2
    · rcases List.mem_cons.mp hv with rfl | hv2
      · rfl
      · exact absurd hid (Nat.ne_of_lt (hw v hv2).1)
    · rcases List.mem_cons.mp hv with rfl | hv2
      · exact absurd hid.symm (Nat.ne_of_lt (hw u hu2).1)
      · exact ih hrest hu2 hv2

/-- The trace invariant behind record immutability: the state is
well-formed, the tracked row's id is below the id cursor, and the row is
either present verbatim or its id is borne by no row at all. -/
def Tracks (u : User) (s : DbState) : Prop :=
  WF s ∧ u.id < s.nextId ∧ (u ∈ s.rows ∨ ∀ v ∈ s.rows, v.id ≠ u.id)

theorem tracks_applyOp (u : User) (s : DbState) (op : Op) (h : Tracks u s) :
    Tracks u (applyOp s op) := by
  obtain ⟨hwf, hlt, hmem⟩ := h
  refine ⟨wf_applyOp s op hwf, ?_, ?_⟩
  · cases op with
    | opGetAll => exact hlt
    | opDelete q => exact hlt
    | opCreate i =>
      cases hc : userCreate s i with
      | error e => rw [create_error_applyOp s i e hc]; exact hlt
      | ok p =>
        obtain ⟨w, s2⟩ := p
        obtain ⟨-, -, -, -, hs2⟩ := (create_ok_iff s i w s2).mp hc
        rw [create_ok_applyOp s i w s2 hc, hs2]
        exact Nat.lt_succ_of_lt hlt
  · cases op with
    | opGetAll => exact hmem
    | opDelete q =>
      rcases hmem with hmem | hnone
      · by_cases hq : (u.id : ℚ) = q
        · right
          intro v hv hvid
          have hv2 := List.mem_filter.mp hv
          have : decide (¬ ((v.id : ℚ) = q)) = true := hv2.2
          rw [decide_eq_true_iff] at this
          exact this (by rw [hvid, hq])
        · left
          simp only [applyOp, userDelete, deleteUser]
          exact List.mem_filter.mpr ⟨hmem, by simpa using hq⟩
      · right
        intro v hv
        exact hnone v (List.mem_of_mem_filter hv)
    | opCreate i =>
      cases hc : userCreate s i with
      | error e => rw [create_error_applyOp s i e hc]; exact hmem
      | ok p =>
        obtain ⟨w, s2⟩ := p
        obtain ⟨-, -, -, hw, hs2⟩ := (create_ok_iff s i w s2).mp hc
        rw [create_ok_applyOp s i w s2 hc, hs2]
        rcases hmem with hmem | hnone
        · exact Or.inl (List.mem_append_left _ hmem)
        · right
          intro v hv
          rcases List.mem_append.mp hv with hv | hv
          · exact hnone v hv
          · rw [List.mem_singleton] at hv
            subst hv
            exact fun hvid => absurd (hvid ▸ hlt) (Nat.lt_irrefl _)

theorem tracks_runOps (u : User) (s : DbState) (ops : List Op) (h : Tracks u s) :
    Tracks u (runOps s ops) := by
  induction ops generalizing s with
  | nil => exact h
  | cons op rest ih => exact ih (applyOp s op) (tracks_applyOp u s op h)

/-- If a character list contains no separator, splitting it yields the
single piece equal to the whole list. -/
theorem splitOn_no_sep (p : Char → Bool) (l : List Char)
    (h : ∀ c ∈ l, p c = false) : splitOn p l = [l] := by
  induction l with
  | nil => rfl
  | cons c rest ih =>
    have hc : p c = false := h c (List.mem_cons_self c rest)
    have hrest : ∀ d ∈ rest, p d = false := fun d hd => h d (List.mem_cons_of_mem c hd)
    simp [splitOn, hc, ih hrest]

/-! ### Claim theorems -/

/-- C1: for every store state, creating a user and then creating a second
user with the same email (and a name passing validation) makes the second
call fail with `ConstraintViolation`, while the row count has grown by
exactly 1, not 2. -/
theorem create_duplicate_email (s : DbState) (n1 n2 e : String) (u : User) (s1 : DbState)
    (h1 : userCreate s ⟨n1, e⟩ = .ok (u, s1))
    (h2 : zodStringMin1 n2 = true) :
    userCreate s1 ⟨n2, e⟩ = .error ApiError.ConstraintViolation ∧
      s1.rows.length = s.rows.length + 1 := by
  obtain ⟨-, he, -, -, hs1⟩ := (create_ok_iff s ⟨n1, e⟩ u s1).mp h1
  subst hs1
  constructor
  · simp [userCreate, insertUser, h2, he, List.any_append]
  · simp

theorem create_duplicate_email_witness :
    userCreate ⟨[⟨1, "Ada", "a@b.co", 0⟩], 2, 1⟩ ⟨"Bob", "a@b.co"⟩ =
        .error ApiError.ConstraintViolation ∧
      (⟨[⟨1, "Ada", "a@b.co", 0⟩], 2, 1⟩ : DbState).rows.length = dbEmpty.rows.length + 1 :=
  create_duplicate_email dbEmpty "Ada" "Bob" "a@b.co" ⟨1, "Ada", "a@b.co", 0⟩
    ⟨[⟨1, "Ada", "a@b.co", 0⟩], 2, 1⟩ (by rfl) (by rfl)

/-- C2 counterexample: the name `" "` consists of whitespace only, so it
is empty after trimming, yet `create` accepts it and inserts a row —
`z.string().min(1)` checks the raw length and performs no trimming. -/
theorem create_accepts_whitespace_name :
    userCreate dbEmpty ⟨" ", "a@b.co"⟩ =
        Except.ok (⟨1, " ", "a@b.co", 0⟩, ⟨[⟨1, " ", "a@b.co", 0⟩], 2, 1⟩) ∧
      " ".toList.all Char.isWhitespace = true := ⟨rfl, rfl⟩

/-- C2 amended: `create` rejects the name with a `ValidationError` on the
`name` field if and only if the name is the empty string (no trimming is
applied, so a whitespace-only name is accepted). -/
theorem create_name_error_iff_empty (s : DbState) (n e : String) :
    userCreate s ⟨n, e⟩ = .error (ApiError.ValidationError "name" "Name is required") ↔
      n = "" := by
  constructor
  · intro h
    by_contra hne
    have hlen : zodStringMin1 n = true := by
      rw [zodStringMin1, decide_eq_true_iff]
      by_contra hle
      exact hne (String.ext (List.length_eq_zero.mp (Nat.lt_one_iff.mp (Nat.not_le.mp hle))))
    by_cases he : zodEmailCheck e
    · by_cases hd : s.rows.any (fun v => v.email == e)
      · simp [userCreate, insertUser, hlen, he, hd] at h
      · simp [userCreate, insertUser, hlen, he, hd] at h
    · rw [Bool.not_eq_true] at he
      simp [userCreate, hlen, he] at h
  · intro h
    subst h
    have hz : zodStringMin1 "" = false := rfl
    simp [userCreate, hz]

theorem create_name_error_iff_empty_witness :
    userCreate dbEmpty ⟨"", "a@b.co"⟩ =
      .error (ApiError.ValidationError "name" "Name is required") :=
  (create_name_error_iff_empty dbEmpty "" "a@b.co").mpr rfl

/-- C3: on any input failing validation (empty name or malformed email),
`create` returns a `ValidationError` carrying a field and a message, and
the store state — in particular its row count — is unchanged. -/
theorem create_invalid_rejected (s : DbState) (i : CreateInput)
    (h : createValid i = false) :
    (∃ f m, userCreate s i = .error (ApiError.ValidationError f m)) ∧
      applyOp s (.opCreate i) = s := by
  have herr : ∃ f m, userCreate s i = .error (ApiError.ValidationError f m) := by
    by_cases h1 : zodStringMin1 i.name
    · have h2 : zodEmailCheck i.email = false := by
        simpa [createValid, h1] using h
      exact ⟨"email", "Invalid email address", by simp [userCreate, h1, h2]⟩
    · rw [Bool.not_eq_true] at h1
      exact ⟨"name", "Name is required", by simp [userCreate, h1]⟩
  obtain ⟨f, m, hf⟩ := herr
  exact ⟨⟨f, m, hf⟩, create_error_applyOp s i _ hf⟩

theorem create_invalid_rejected_witness :
    (∃ f m, userCreate dbEmpty ⟨"", "a@b.co"⟩ = .error (ApiError.ValidationError f m)) ∧
      applyOp dbEmpty (.opCreate ⟨"", "a@b.co"⟩) = dbEmpty :=
  create_invalid_rejected dbEmpty ⟨"", "a@b.co"⟩ (by rfl)

/-- C4: after any sequence of calls starting from the empty store,
`getAll` returns exactly the stored rows in insertion order, with
`createdAt` non-decreasing along the list (no filtering, no
pagination). -/
theorem getAll_sorted_insertion_order (ops : List Op) :
    userGetAll (runOps dbEmpty ops) = (runOps dbEmpty ops).rows ∧
      (userGetAll (runOps dbEmpty ops)).Pairwise
        (fun a b => a.createdAt ≤ b.createdAt) := by
  have hwf := wf_runOps dbEmpty ops wf_dbEmpty
  have heq : userGetAll (runOps dbEmpty ops) = (runOps dbEmpty ops).rows :=
    sortByCreatedAt_eq_self _ (hwf.1.imp (fun h => h.2))
  refine ⟨heq, ?_⟩
  rw [heq]
  exact hwf.1.imp (fun h => Nat.le_of_lt h.2)

/-- C5: deleting an id that matches no row returns `{success := true}`
and leaves the store unchanged, and a second delete of the same id is
also `{success := true}` and a no-op — delete is idempotent. -/
theorem delete_idempotent (s : DbState) (q : ℚ) :
    ((∀ u ∈ s.rows, (u.id : ℚ) ≠ q) → userDelete s q = (⟨true⟩, s)) ∧
      userDelete (userDelete s q).2 q = (⟨true⟩, (userDelete s q).2) := by
  constructor
  · intro h
    have hfix : s.rows.filter (fun u => decide (¬ ((u.id : ℚ) = q))) = s.rows :=
      List.filter_eq_self.mpr (fun a ha => by simpa using h a ha)
    show ((⟨true⟩ : DeleteResponse),
        (⟨s.rows.filter (fun u => decide (¬ ((u.id : ℚ) = q))), s.nextId, s.clock⟩ :
          DbState)) = ((⟨true⟩ : DeleteResponse), s)
    rw [hfix]
  · have hfix : (deleteUser s q).rows.filter (fun u => decide (¬ ((u.id : ℚ) = q))) =
        (deleteUser s q).rows :=
      List.filter_eq_self.mpr (fun a ha => (List.mem_filter.mp ha).2)
    show ((⟨true⟩ : DeleteResponse),
        (⟨(deleteUser s q).rows.filter (fun u => decide (¬ ((u.id : ℚ) = q))),
          (deleteUser s q).nextId, (deleteUser s q).clock⟩ : DbState)) =
      ((⟨true⟩ : DeleteResponse), deleteUser s q)
    rw [hfix]

theorem delete_idempotent_witness :
    userDelete dbEmpty 5 = (⟨true⟩, dbEmpty) ∧
      userDelete (userDelete dbEmpty 5).2 5 = (⟨true⟩, (userDelete dbEmpty 5).2) :=
  ⟨(delete_idempotent dbEmpty 5).1 (by decide), (delete_idempotent dbEmpty 5).2⟩

/-- The rational number 3/2, a JavaScript number that is not an
integer. -/
def ratThreeHalves : ℚ := ⟨3, 2, by norm_num, by norm_num⟩

/-- C6 counterexample: `delete` accepts the non-integer id 3/2 — the
input schema is `z.number()`, not `z.number().int()` — and answers
`{success := true}`. -/
theorem delete_accepts_noninteger :
    userDeleteRaw dbEmpty (JsValue.vNum ratThreeHalves) = Except.ok (⟨true⟩, dbEmpty) ∧
      ¬ ∃ n : ℤ, ratThreeHalves = (n : ℚ) := by
  refine ⟨rfl, ?_⟩
  rintro ⟨n, h⟩
  have h2 : ratThreeHalves.den = 1 := by rw [h]; exact Rat.den_intCast n
  simp [ratThreeHalves] at h2

/-- C6 amended: `delete`'s input boundary accepts exactly the values of
JavaScript type `number` other than NaN — integer or not — and on every
accepted input the response is `{success := true}` with the matching
rows removed. -/
theorem delete_input_accepts_numbers (s : DbState) (q : ℚ) (v : JsValue) :
    userDeleteRaw s (JsValue.vNum q) = Except.ok (⟨true⟩, deleteUser s q) ∧
      ((zodNumberParse v).isSome = true ↔ ∃ r : ℚ, v = JsValue.vNum r) := by
  refine ⟨rfl, ?_⟩
  cases v <;> simp [zodNumberParse]

theorem delete_input_accepts_numbers_witness :
    userDeleteRaw dbEmpty (JsValue.vNum 7) = Except.ok (⟨true⟩, deleteUser dbEmpty 7) ∧
      ((zodNumberParse (JsValue.vStr "x")).isSome = true ↔
        ∃ r : ℚ, JsValue.vStr "x" = JsValue.vNum r) :=
  delete_input_accepts_numbers dbEmpty 7 (JsValue.vStr "x")

/-- C7 counterexample: `"a@b.c"` has a local part, an `@`, and a domain
containing a dot — the spec's "standard email syntax" — yet `create`
rejects it with a `ValidationError`, because Zod's regex requires the
final domain label to have at least two letters. -/
theorem email_shape_rejected :
    specEmailShape "a@b.c" = true ∧
      userCreate dbEmpty ⟨"Ada", "a@b.c"⟩ =
        Except.error (ApiError.ValidationError "email" "Invalid email address") :=
  ⟨rfl, rfl⟩

/-- C7 amended: every email accepted by `create`'s validator
(`zodEmailCheck`) does have the shape local-part@domain with at least one
dot in the domain; the converse fails, since Zod's regex additionally
constrains the character set, the dots, and the final label's length. -/
theorem email_accepted_implies_shape (e : String) (h : zodEmailCheck e = true) :
    specEmailShape e = true := by
  rw [zodEmailCheck] at h
  rw [specEmailShape]
  rw [zodEmailCheckL] at h
  rw [specEmailShapeL]
  rcases hs : splitOn (fun c => decide (c.toNat = 64)) e.toList with _ | ⟨loc, _ | ⟨dom, rest⟩⟩ <;>
    rw [hs] at h
  · simp at h
  · simp at h
  · cases rest with
    | cons x xs => simp at h
    | nil =>
      simp only [Bool.and_eq_true] at h
      obtain ⟨hl, hd⟩ := h
      cases loc with
      | nil => simp [zodLocalOk] at hl
      | cons c0 loct =>
        cases dom with
        | nil => simp [zodDomainOk, splitOn] at hd
        | cons d0 domt =>
          simp only [List.isEmpty_cons, Bool.not_false, Bool.true_and]
          by_contra hany
          rw [Bool.not_eq_true, List.any_eq_false] at hany
          have hall : ∀ c ∈ d0 :: domt, (fun c => decide (c.toNat = 46)) c = false :=
            fun c hc => by simpa using hany c hc
          simp only [zodDomainOk] at hd
          rw [splitOn_no_sep _ _ hall] at hd
          simp at hd

theorem email_accepted_implies_shape_witness :
    specEmailShape "ada@x.com" = true :=
  email_accepted_implies_shape "ada@x.com" (by rfl)

/-- C8: a successful `create` returns the full newly created record:
the submitted name and email together with the server-assigned `id`
(the auto-increment cursor) and `createdAt` (the server clock), and that
very record appears in a subsequent `getAll`. -/
theorem create_returns_created_record (s : DbState) (i : CreateInput) (u : User)
    (s2 : DbState) (h : userCreate s i = .ok (u, s2)) :
    u.name = i.name ∧ u.email = i.email ∧ u.id = s.nextId ∧ u.createdAt = s.clock ∧
      u ∈ userGetAll s2 := by
  obtain ⟨-, -, -, hu, hs2⟩ := (create_ok_iff s i u s2).mp h
  subst hu
  subst hs2
  refine ⟨rfl, rfl, rfl, rfl, ?_⟩
  rw [userGetAll, listUsers, mem_sortByCreatedAt]
  simp

theorem create_returns_created_record_witness :
    (⟨1, "Ada", "a@b.co", 0⟩ : User).name = (⟨"Ada", "a@b.co"⟩ : CreateInput).name ∧
      (⟨1, "Ada", "a@b.co", 0⟩ : User).email = (⟨"Ada", "a@b.co"⟩ : CreateInput).email ∧
      (⟨1, "Ada", "a@b.co", 0⟩ : User).id = dbEmpty.nextId ∧
      (⟨1, "Ada", "a@b.co", 0⟩ : User).createdAt = dbEmpty.clock ∧
      (⟨1, "Ada", "a@b.co", 0⟩ : User) ∈ userGetAll ⟨[⟨1, "Ada", "a@b.co", 0⟩], 2, 1⟩ :=
  create_returns_created_record dbEmpty ⟨"Ada", "a@b.co"⟩ ⟨1, "Ada", "a@b.co", 0⟩
    ⟨[⟨1, "Ada", "a@b.co", 0⟩], 2, 1⟩ (by rfl)

/-- C9: no call mutates a stored record: if a row is in the store after
some call sequence, then after any further sequence every row bearing its
id is that very row — name, email, id and createdAt unchanged; rows are
only ever created or deleted. -/
theorem stored_user_immutable (ops1 ops2 : List Op) (u v : User)
    (hu : u ∈ (runOps dbEmpty ops1).rows)
    (hv : v ∈ (runOps (runOps dbEmpty ops1) ops2).rows)
    (hid : v.id = u.id) : v = u := by
  have hwf1 : WF (runOps dbEmpty ops1) := wf_runOps dbEmpty ops1 wf_dbEmpty
  have ht2 := tracks_runOps u (runOps dbEmpty ops1) ops2 ⟨hwf1, hwf1.2.1 u hu, Or.inl hu⟩
  obtain ⟨hwf2, -, hmem⟩ := ht2
  rcases hmem with hmem | hnone
  · exact pairwise_id_unique _ hwf2.1 v u hv hmem hid
  · exact absurd hid (hnone v hv)

theorem stored_user_immutable_witness :
    (⟨1, "Ada", "a@b.co", 0⟩ : User) = ⟨1, "Ada", "a@b.co", 0⟩ :=
  stored_user_immutable [.opCreate ⟨"Ada", "a@b.co"⟩] [.opCreate ⟨"Bob", "b@b.co"⟩]
    ⟨1, "Ada", "a@b.co", 0⟩ ⟨1, "Ada", "a@b.co", 0⟩ (by decide) (by decide) rfl

/-- C10: `delete` removes exactly the rows whose id equals the input
value: a row survives iff it was present and its id differs, and the
surviving rows are a sublist of the old rows — every other row is
untouched and order is preserved. -/
theorem delete_exactly_matching_rows (s : DbState) (q : ℚ) (v : User) :
    (v ∈ (userDelete s q).2.rows ↔ v ∈ s.rows ∧ (v.id : ℚ) ≠ q) ∧
      (userDelete s q).2.rows.Sublist s.rows := by
  constructor
  · simp [userDelete, deleteUser, List.mem_filter]
  · exact List.filter_sublist _

theorem delete_exactly_matching_rows_witness :
    ((⟨1, "Ada", "a@b.co", 0⟩ : User) ∈ (userDelete dbEmpty 1).2.rows ↔
      (⟨1, "Ada", "a@b.co", 0⟩ : User) ∈ dbEmpty.rows ∧
        ((⟨1, "Ada", "a@b.co", 0⟩ : User).id : ℚ) ≠ 1) ∧
      (userDelete dbEmpty 1).2.rows.Sublist dbEmpty.rows :=
  delete_exactly_matching_rows dbEmpty 1 ⟨1, "Ada", "a@b.co", 0⟩

end T3
